import Mathlib

/-!
Verification development for the Power BI dependency-analyzer repository.

The repository contains two near-duplicate Streamlit dashboards:
* `src/mcp_analyzer.py` — class `MCPStreamlitBridge`, a denormalized SQLite
  schema (one `projects` table whose child data lives in JSON text columns);
* `src/powerbi_analyzer.py` — class `PowerBIDependencyAnalyzer`, a normalized
  schema (`projects`, `tables`, `columns`, `measures`, `relationships`,
  `power_queries`).

Python strings are embedded as `List Char`; SQLite rows as Lean structures;
an SQLite table as a `List` of rows in rowid order together with the
`AUTOINCREMENT` counter; a stored JSON text column as a `Blob`, whose
constructors record the three cases the Python code distinguishes at read
time (SQL `NULL`, text rejected by `json.loads`, text parsing to the
expected shape).  File-system inputs (the file's hash, its size, the clock)
and the outcome of the external extraction subprocess are passed to the
analyze operations as explicit parameters.
-/

/-- Python `str` embedded as its list of characters. -/
abbrev Str := List Char

/-- Coerce a Lean string literal to the embedded string type. -/
def pstr (s : String) : Str := s.data

/-- Python `str.lower()` (ASCII-faithful). -/
def strLower (s : Str) : Str := s.map Char.toLower

/-- Python `str.find(needle)` restricted to found/not-found: index of the
first occurrence of `needle`, if any. -/
def findSub (needle : Str) : Str → Option Nat
  | [] => if needle.isEmpty then some 0 else none
  | c :: rest =>
    if needle.isPrefixOf (c :: rest) then some 0
    else (findSub needle rest).map (· + 1)

/-- Python `needle in hay` (substring containment). -/
def hasSub (needle hay : Str) : Bool := (findSub needle hay).isSome

/-- The whitespace characters the embedded `strip`/JSON lexer recognise
(space, tab, newline, carriage return — the set used by Python's `json`
module between tokens). -/
def pyWs (c : Char) : Bool := c == ' ' || c == '\t' || c == '\n' || c == '\r'

/-- Python `str.strip()` on the whitespace set above. -/
def pyStrip (s : Str) : Str :=
  ((s.dropWhile pyWs).reverse.dropWhile pyWs).reverse

/-- Python's `<=` on strings: lexicographic comparison by code point. -/
def strLe : Str → Str → Bool
  | [], _ => true
  | _ :: _, [] => false
  | a :: as, b :: bs => if a == b then strLe as bs else decide (a.toNat < b.toNat)

/-- `strLe` as a binary relation, for use with `List.insertionSort`. -/
def strLeRel (a b : Str) : Prop := strLe a b = true

instance : DecidableRel strLeRel := fun a b => Bool.decEq (strLe a b) true

/-- Python `', '.join(l)`. -/
def joinComma : List Str → Str
  | [] => []
  | [a] => a
  | a :: b :: rest => a ++ pstr ", " ++ joinComma (b :: rest)

/-- Python `set.add`: append the element unless already present (the embedding
keeps sets of strings as duplicate-free lists in insertion order). -/
def insertAbsent (l : List Str) (a : Str) : List Str :=
  if l.contains a then l else l ++ [a]

/-- A stored JSON text column, as the read side of the code classifies it:
`null` is SQL `NULL`, `malformed` is non-`NULL` text that `json.loads`
rejects with `json.JSONDecodeError`, and `ok v` is text parsing to the shape
`v` that the writer (`json.dumps`) produced. -/
inductive Blob (α : Type) where
  | null
  | malformed
  | ok (val : α)
deriving DecidableEq

/-- SQL `IS NULL` test on a stored column. -/
def Blob.isNull : Blob α → Bool
  | .null => true
  | _ => false

/-- One element of a `tables_data` JSON list's `columns` field
(mcp_analyzer.py lines 152-156). -/
structure ColumnRec where
  name : Str
  data_type : Str
  is_calculated : Bool
deriving DecidableEq

/-- One element of a `tables_data` JSON list (mcp_analyzer.py lines 135-140). -/
structure TableRec where
  name : Str
  row_count : Nat
  column_count : Nat
  columns : List ColumnRec
deriving DecidableEq

/-- One element of a `measures_data` JSON list (mcp_analyzer.py lines 187-191). -/
structure MeasureRec where
  table_name : Str
  name : Str
  expression : Str
deriving DecidableEq

/-- One element of a `relationships_data` JSON list (mcp_analyzer.py
lines 210-216). -/
structure RelRec where
  from_table : Str
  from_column : Str
  to_table : Str
  to_column : Str
  cardinality : Str
deriving DecidableEq

/-- The `metadata_data` JSON object (mcp_analyzer.py lines 225-237;
`model_size` is absent on the script's metadata-exception path). -/
structure MetaRec where
  table_count : Nat
  measure_count : Nat
  relationship_count : Nat
  model_size : Option Nat
deriving DecidableEq

/-- One row of the shared-tables / shared-measures / shared-columns reports
(mcp_analyzer.py lines 345-349, 381-385, 420-424; the Python dict key
`table_name`/`measure_name`/`column_name` is uniformly called `name` here). -/
structure SharedRow where
  name : Str
  project_count : Nat
  projects : Str
deriving DecidableEq

/-- The ordering `sort_values('project_count', ascending=False)` establishes:
descending by `project_count`. -/
def countGE (a b : SharedRow) : Prop := b.project_count ≤ a.project_count

instance : DecidableRel countGE := fun a b => Nat.decLe b.project_count a.project_count

instance : IsTotal SharedRow countGE :=
  ⟨fun a b => Nat.le_total b.project_count a.project_count⟩

instance : IsTrans SharedRow countGE :=
  ⟨fun _ _ _ hab hbc => Nat.le_trans hbc hab⟩

/-- A parsed JSON value, as `json.loads` would return it.  Numbers keep their
source literal (no value arithmetic is ever performed on them in this code). -/
inductive Json where
  | null
  | bool (b : Bool)
  | num (lit : Str)
  | str (s : Str)
  | arr (xs : List Json)
  | obj (kvs : List (Str × Json))

namespace MCP

/-- One row of the denormalized `projects` table (mcp_analyzer.py
lines 44-58).  `last_analyzed` is an abstract timestamp. -/
structure ProjectRow where
  id : Nat
  name : Str
  file_path : Str
  file_hash : Str
  last_analyzed : Nat
  model_size : Nat
  tables_data : Blob (List TableRec)
  metadata_data : Blob MetaRec
  schema_data : Blob Json
  measures_data : Blob (List MeasureRec)
  relationships_data : Blob (List RelRec)

/-- The SQLite database of `MCPStreamlitBridge`: the `projects` rows in rowid
order plus the `AUTOINCREMENT` counter (always strictly above every id ever
assigned, so in particular `1 ≤ next_id` and ids are never reused). -/
structure Store where
  next_id : Nat
  projects : List ProjectRow

/-- The decoded `SUCCESS:` payload (mcp_analyzer.py lines 108-114):
`data['tables']`, `data['metadata']`, `data.get('schema', [])`,
`data['measures']`, `data['relationships']`. -/
structure Payload where
  tables : List TableRec
  metadata : MetaRec
  schema : Json
  measures : List MeasureRec
  relationships : List RelRec

/-- The outcome of the extraction subprocess as `analyze_pbix_file_with_mcp`
discriminates it (mcp_analyzer.py lines 252-306): `timeout` is
`subprocess.TimeoutExpired` (caught by the outer `except Exception`),
`failure` is a non-zero exit code, a missing `SUCCESS:` marker, or a payload
that fails to parse, and `success` carries the decoded payload.  The
marker/JSON handling itself is modelled separately by
`parseExtractionOutput`. -/
inductive ExtractOutcome where
  | timeout
  | failure
  | success (payload : Payload)

end MCP

namespace MCP

/-- `SELECT id, file_hash FROM projects WHERE name = ?` + `fetchone()`
(mcp_analyzer.py line 82). -/
def findByName (ps : List ProjectRow) (n : Str) : Option ProjectRow :=
  ps.find? (fun p => p.name == n)

/-- `DELETE FROM projects WHERE name = ?` (mcp_analyzer.py line 92). -/
def deleteByName (st : Store) (n : Str) : Store :=
  { st with projects := st.projects.filter (fun p => !(p.name == n)) }

/-- `INSERT OR REPLACE INTO projects (...) VALUES (...)` (mcp_analyzer.py
lines 268-284): any row with the conflicting `UNIQUE` name is replaced, the
new row gets the fresh `AUTOINCREMENT` rowid, and `cursor.lastrowid` (the
second component) is that rowid. -/
def insertProjectRow (st : Store) (file_path project_name file_hash : Str)
    (now file_size : Nat) (d : Payload) : Store × Nat :=
  let pid := st.next_id
  ({ next_id := pid + 1,
     projects := st.projects.filter (fun p => !(p.name == project_name)) ++
       [{ id := pid, name := project_name, file_path := file_path,
          file_hash := file_hash, last_analyzed := now, model_size := file_size,
          tables_data := .ok d.tables, metadata_data := .ok d.metadata,
          schema_data := .ok d.schema, measures_data := .ok d.measures,
          relationships_data := .ok d.relationships }] },
   pid)

/-- The part of `analyze_pbix_file_with_mcp` after the duplicate check
(mcp_analyzer.py lines 95-309): on a successful extraction the payload row is
inserted and its rowid returned; on a failed or timed-out extraction nothing
further is written and `None` is returned. -/
def runExtract (st : Store) (file_path project_name file_hash : Str)
    (now file_size : Nat) (ext : ExtractOutcome) : Store × Option Nat :=
  match ext with
  | .success d =>
    let r := insertProjectRow st file_path project_name file_hash now file_size d
    (r.1, some r.2)
  | _ => (st, none)

/-- `MCPStreamlitBridge.analyze_pbix_file_with_mcp` (mcp_analyzer.py
lines 71-309).  The file's hash, its size, the clock and the extraction
outcome are explicit parameters.  If a project of the same name and the same
hash exists, the stored id is returned unchanged (lines 85-88); if one exists
with a different hash it is deleted — and committed — before the extraction
is attempted (lines 90-93). -/
def analyze_pbix_file_with_mcp (st : Store) (file_path project_name file_hash : Str)
    (now file_size : Nat) (ext : ExtractOutcome) : Store × Option Nat :=
  match findByName st.projects project_name with
  | some e =>
    if e.file_hash == file_hash then (st, some e.id)
    else runExtract (deleteByName st project_name) file_path project_name file_hash
      now file_size ext
  | none => runExtract st file_path project_name file_hash now file_size ext

/-- The dict-of-sets usage map update: `if key not in usage: usage[key] = set()`
followed by `usage[key].add(project_name)` (mcp_analyzer.py lines 334-337,
370-373, 408-412), on an association list in dict insertion order. -/
def addUsage : List (Str × List Str) → Str → Str → List (Str × List Str)
  | [], key, pname => [(key, [pname])]
  | (k, ps) :: rest, key, pname =>
    if k == key then (k, insertAbsent ps pname) :: rest
    else (k, ps) :: addUsage rest key pname

/-- The double loop filling the usage map: over stored projects in rowid
order, then over the keys the project's blob contributes. -/
def buildUsage (keysOf : ProjectRow → List Str) (ps : List ProjectRow) :
    List (Str × List Str) :=
  ps.foldl (fun acc p => (keysOf p).foldl (fun a k => addUsage a k p.name) acc) []

/-- Filtering the usage map to keys owned by more than one project and
formatting the rows (mcp_analyzer.py lines 342-349 etc.):
`', '.join(sorted(project_set))`. -/
def sharedRows (usage : List (Str × List Str)) : List SharedRow :=
  (usage.filter (fun kv => decide (1 < kv.2.length))).map
    (fun kv =>
      { name := kv.1, project_count := kv.2.length,
        projects := joinComma (List.insertionSort strLeRel kv.2) })

/-- The full shared-entity report: usage map, filter, format,
`sort_values('project_count', ascending=False)`. -/
def sharedReport (keysOf : ProjectRow → List Str) (ps : List ProjectRow) :
    List SharedRow :=
  List.insertionSort countGE (sharedRows (buildUsage keysOf ps))

/-- The table names a stored `tables_data` blob contributes
(mcp_analyzer.py lines 329-339): `NULL` rows are excluded by the SQL filter,
a `json.JSONDecodeError` hits `continue`, otherwise every element's `name`. -/
def tableKeys : Blob (List TableRec) → List Str
  | .ok ts => ts.map (fun t => t.name)
  | _ => []

/-- The `table.column` composite keys a stored `tables_data` blob contributes
(mcp_analyzer.py lines 401-414): `f"{table_name}.{column_name}"` over
`table.get('columns', [])`. -/
def columnKeys : Blob (List TableRec) → List Str
  | .ok ts => ts.flatMap (fun t => t.columns.map (fun c => t.name ++ ('.' :: c.name)))
  | _ => []

/-- The measure names a stored `measures_data` blob contributes
(mcp_analyzer.py lines 365-375). -/
def measureKeys : Blob (List MeasureRec) → List Str
  | .ok ms => ms.map (fun m => m.name)
  | _ => []

/-- `MCPStreamlitBridge.get_shared_tables` (mcp_analyzer.py lines 318-352). -/
def get_shared_tables (st : Store) : List SharedRow :=
  sharedReport (fun p => tableKeys p.tables_data) st.projects

/-- `MCPStreamlitBridge.get_shared_measures` (mcp_analyzer.py lines 354-388). -/
def get_shared_measures (st : Store) : List SharedRow :=
  sharedReport (fun p => measureKeys p.measures_data) st.projects

/-- `MCPStreamlitBridge.get_shared_columns` (mcp_analyzer.py lines 390-427). -/
def get_shared_columns (st : Store) : List SharedRow :=
  sharedReport (fun p => columnKeys p.tables_data) st.projects

end MCP

namespace MCP

/-- One entry of `results['projects_using_table']` (mcp_analyzer.py
lines 454-458). -/
structure TableHit where
  project_name : Str
  table_name : Str
  match_type : Str
deriving DecidableEq

/-- One entry of `results['projects_using_column']` (mcp_analyzer.py
lines 463-468). -/
structure ColumnHit where
  project_name : Str
  table_name : Str
  column_name : Str
  match_type : Str
deriving DecidableEq

/-- One entry of `results['projects_with_measure']` (mcp_analyzer.py
lines 479-485). -/
structure MeasureHit where
  project_name : Str
  table_name : Str
  measure_name : Str
  dax_expression : Str
  match_type : Str
deriving DecidableEq

/-- One entry of `results['measures_referencing_item']` (mcp_analyzer.py
lines 490-495). -/
structure DaxHit where
  project_name : Str
  measure_name : Str
  dax_expression : Str
  match_type : Str
deriving DecidableEq

/-- The four result lists of `analyze_impact` (mcp_analyzer.py lines 433-438). -/
structure ImpactResults where
  projects_using_table : List TableHit
  measures_referencing_item : List DaxHit
  projects_with_measure : List MeasureHit
  projects_using_column : List ColumnHit
deriving DecidableEq

/-- The initial empty `results` dict (mcp_analyzer.py lines 433-438). -/
def emptyResults : ImpactResults :=
  { projects_using_table := [], measures_referencing_item := [],
    projects_with_measure := [], projects_using_column := [] }

/-- `search_type in ["all", "table"]` (mcp_analyzer.py line 448). -/
def scopeHasTable (search_type : Str) : Bool :=
  search_type == pstr "all" || search_type == pstr "table"

/-- `search_type in ["all", "measure"]` (mcp_analyzer.py line 473). -/
def scopeHasMeasure (search_type : Str) : Bool :=
  search_type == pstr "all" || search_type == pstr "measure"

/-- The body of the per-table loop in `analyze_impact` (mcp_analyzer.py
lines 451-468): a table-name hit, then a column-name hit per column of that
table. -/
def scanTable (tl pname : Str) (acc : ImpactResults) (t : TableRec) : ImpactResults :=
  let acc1 :=
    if hasSub tl (strLower t.name) then
      { acc with projects_using_table :=
          acc.projects_using_table ++ [⟨pname, t.name, pstr "Table Name"⟩] }
    else acc
  t.columns.foldl
    (fun a c =>
      if hasSub tl (strLower c.name) then
        { a with projects_using_column :=
            a.projects_using_column ++ [⟨pname, t.name, c.name, pstr "Column Name"⟩] }
      else a)
    acc1

/-- The body of the per-measure loop in `analyze_impact` (mcp_analyzer.py
lines 476-495): a measure-name hit, then a DAX-expression hit. -/
def scanMeasure (tl pname : Str) (acc : ImpactResults) (m : MeasureRec) : ImpactResults :=
  let acc1 :=
    if hasSub tl (strLower m.name) then
      { acc with projects_with_measure :=
          acc.projects_with_measure ++
            [⟨pname, m.table_name, m.name, m.expression, pstr "Measure Name"⟩] }
    else acc
  if hasSub tl (strLower m.expression) then
    { acc1 with measures_referencing_item :=
        acc1.measures_referencing_item ++
          [⟨pname, m.name, m.expression, pstr "DAX Expression Reference"⟩] }
  else acc1

/-- The measures half of the per-project loop body (mcp_analyzer.py
lines 473-497): run only when `measures_data` is truthy and the scope is
`all` or `measure`; a `json.JSONDecodeError` there ends the loop body. -/
def scanMeasuresPart (tl search_type pname : Str) (mb : Blob (List MeasureRec))
    (acc : ImpactResults) : ImpactResults :=
  if scopeHasMeasure search_type then
    match mb with
    | .ok ms => ms.foldl (scanMeasure tl pname) acc
    | _ => acc
  else acc

/-- The whole per-project loop body of `analyze_impact` (mcp_analyzer.py
lines 446-497).  When the tables branch is active (`tables_data` truthy and
scope `all`/`table`) and the blob is malformed, the `continue` at line 470
skips the measures branch for that project as well; a `NULL` blob is falsy
and merely skips the tables branch. -/
def stepProject (tl search_type : Str) (acc : ImpactResults) (p : ProjectRow) :
    ImpactResults :=
  match p.tables_data, scopeHasTable search_type with
  | .malformed, true => acc
  | .ok ts, true =>
    scanMeasuresPart tl search_type p.name p.measures_data
      (ts.foldl (scanTable tl p.name) acc)
  | _, _ => scanMeasuresPart tl search_type p.name p.measures_data acc

/-- `MCPStreamlitBridge.analyze_impact` (mcp_analyzer.py lines 429-500):
lower the term once, select the rows with
`tables_data IS NOT NULL OR measures_data IS NOT NULL`, and fold the
per-project body over them. -/
def analyze_impact (st : Store) (search_term search_type : Str) : ImpactResults :=
  let search_term_lower := strLower search_term
  (st.projects.filter
      (fun p => !p.tables_data.isNull || !p.measures_data.isNull)).foldl
    (stepProject search_term_lower search_type) emptyResults

end MCP

namespace Norm

/-- One row of the normalized `projects` table (powerbi_analyzer.py
lines 37-48). -/
structure NProjectRow where
  id : Nat
  name : Str
  file_path : Str
  file_hash : Str
  last_analyzed : Nat
  model_size : Nat
  table_count : Nat
  measure_count : Nat
deriving DecidableEq

/-- One row of the `tables` table (powerbi_analyzer.py lines 51-60). -/
structure NTableRow where
  id : Nat
  project_id : Nat
  table_name : Str
  row_count : Nat
  column_count : Nat
deriving DecidableEq

/-- One row of the `columns` table (powerbi_analyzer.py lines 63-72). -/
structure NColumnRow where
  id : Nat
  table_id : Nat
  column_name : Str
  data_type : Str
  is_calculated : Bool
deriving DecidableEq

/-- One row of the `measures` table (powerbi_analyzer.py lines 75-84). -/
structure NMeasureRow where
  id : Nat
  project_id : Nat
  table_name : Str
  measure_name : Str
  dax_expression : Str
deriving DecidableEq

/-- One row of the `relationships` table (powerbi_analyzer.py lines 87-98). -/
structure NRelRow where
  id : Nat
  project_id : Nat
  from_table : Str
  from_column : Str
  to_table : Str
  to_column : Str
  cardinality : Str
deriving DecidableEq

/-- One row of the `power_queries` table (powerbi_analyzer.py lines 101-109). -/
structure NQueryRow where
  id : Nat
  project_id : Nat
  query_name : Str
  m_expression : Str
deriving DecidableEq

/-- The SQLite database of `PowerBIDependencyAnalyzer`: six tables, each with
its own `AUTOINCREMENT` counter (every counter strictly above every id ever
used in its table). -/
structure Store where
  next_project_id : Nat
  next_table_id : Nat
  next_column_id : Nat
  next_measure_id : Nat
  next_rel_id : Nat
  next_query_id : Nat
  projects : List NProjectRow
  tables : List NTableRow
  columns : List NColumnRow
  measures : List NMeasureRow
  relationships : List NRelRow
  power_queries : List NQueryRow
deriving DecidableEq

/-- A column of the in-process `PbixModel` (powerbi_analyzer.py
lines 182-187): attributes `name`, best-effort `data_type` and
`is_calculated`. -/
structure MColumn where
  name : Str
  data_type : Str
  is_calculated : Bool
deriving DecidableEq

/-- A measure of the in-process `PbixModel` (powerbi_analyzer.py
lines 190-194). -/
structure MMeasure where
  name : Str
  expression : Str
deriving DecidableEq

/-- A table of the in-process `PbixModel` (powerbi_analyzer.py
lines 173-194): attributes `name`, best-effort `row_count`, `columns`,
`measures`. -/
structure MTable where
  name : Str
  row_count : Nat
  columns : List MColumn
  measures : List MMeasure
deriving DecidableEq

/-- A relationship of the in-process `PbixModel` (powerbi_analyzer.py
lines 197-202). -/
structure MRel where
  from_table : Str
  from_column : Str
  to_table : Str
  to_column : Str
  cardinality : Str
deriving DecidableEq

/-- A Power Query of the in-process `PbixModel` (powerbi_analyzer.py
lines 205-209). -/
structure MQuery where
  name : Str
  expression : Str
deriving DecidableEq

/-- The in-process `PbixModel` (powerbi_analyzer.py line 129). -/
structure Model where
  tables : List MTable
  relationships : List MRel
  queries : List MQuery
deriving DecidableEq

/-- `SELECT id, file_hash FROM projects WHERE name = ?` + `fetchone()`
(powerbi_analyzer.py line 140). -/
def findByName (ps : List NProjectRow) (n : Str) : Option NProjectRow :=
  ps.find? (fun p => p.name == n)

/-- `len([m for table in model.tables for m in table.measures])`
(powerbi_analyzer.py line 160). -/
def modelMeasureCount (m : Model) : Nat :=
  (m.tables.flatMap (fun t => t.measures)).length

/-- The per-table body of the storage loop (powerbi_analyzer.py
lines 173-194): insert the table row, then — with `table_id` the fresh rowid
of that insert — its column rows, then its measure rows. -/
def insertTableData (pid : Nat) (st : Store) (t : MTable) : Store :=
  let table_id := st.next_table_id
  let st1 := { st with
    next_table_id := table_id + 1,
    tables := st.tables ++
      [{ id := table_id, project_id := pid, table_name := t.name,
         row_count := t.row_count, column_count := t.columns.length }] }
  let st2 := t.columns.foldl
    (fun s c =>
      { s with
        next_column_id := s.next_column_id + 1,
        columns := s.columns ++
          [{ id := s.next_column_id, table_id := table_id, column_name := c.name,
             data_type := c.data_type, is_calculated := c.is_calculated }] })
    st1
  t.measures.foldl
    (fun s m =>
      { s with
        next_measure_id := s.next_measure_id + 1,
        measures := s.measures ++
          [{ id := s.next_measure_id, project_id := pid, table_name := t.name,
             measure_name := m.name, dax_expression := m.expression }] })
    st2

/-- The write phase of `analyze_pbix_file` (powerbi_analyzer.py
lines 148-214), entered once the same-hash check has not fired:
`INSERT OR REPLACE INTO projects` (which drops any row with the conflicting
`UNIQUE` name and inserts a fresh row under a fresh `AUTOINCREMENT` id,
setting `cursor.lastrowid` to that fresh id), then the five
`DELETE ... WHERE project_id = ?` statements issued with that fresh id —
note the `DELETE FROM columns` subquery runs after the `tables` delete —
then the insertion loops, then `return project_id`. -/
def storeModelData (st : Store) (file_path project_name file_hash : Str)
    (now file_size : Nat) (m : Model) : Store × Option Nat :=
  let project_id := st.next_project_id
  let st1 : Store := { st with
    next_project_id := project_id + 1,
    projects := st.projects.filter (fun p => !(p.name == project_name)) ++
      [{ id := project_id, name := project_name, file_path := file_path,
         file_hash := file_hash, last_analyzed := now, model_size := file_size,
         table_count := m.tables.length, measure_count := modelMeasureCount m }] }
  let st2 : Store := { st1 with tables := st1.tables.filter (fun t => !(t.project_id == project_id)) }
  let tableIdsOfProject := (st2.tables.filter (fun t => t.project_id == project_id)).map (fun t => t.id)
  let st3 : Store := { st2 with columns := st2.columns.filter (fun c => !(tableIdsOfProject.contains c.table_id)) }
  let st4 : Store := { st3 with measures := st3.measures.filter (fun mm => !(mm.project_id == project_id)) }
  let st5 : Store := { st4 with relationships := st4.relationships.filter (fun r => !(r.project_id == project_id)) }
  let st6 : Store := { st5 with power_queries := st5.power_queries.filter (fun q => !(q.project_id == project_id)) }
  let st7 := m.tables.foldl (insertTableData project_id) st6
  let st8 := m.relationships.foldl
    (fun s r =>
      { s with
        next_rel_id := s.next_rel_id + 1,
        relationships := s.relationships ++
          [{ id := s.next_rel_id, project_id := project_id, from_table := r.from_table,
             from_column := r.from_column, to_table := r.to_table,
             to_column := r.to_column, cardinality := r.cardinality }] })
    st7
  let st9 := m.queries.foldl
    (fun s q =>
      { s with
        next_query_id := s.next_query_id + 1,
        power_queries := s.power_queries ++
          [{ id := s.next_query_id, project_id := project_id, query_name := q.name,
             m_expression := q.expression }] })
    st8
  (st9, some project_id)

/-- `PowerBIDependencyAnalyzer.analyze_pbix_file` (powerbi_analyzer.py
lines 122-218).  `avail` is `PBIXRAY_AVAILABLE`; `model` is `none` when
`PbixModel(file_path)` raises (the exception is caught at line 216 and `None`
returned with nothing written).  If a project of the same name and hash
exists, its id is returned with nothing written (lines 143-146). -/
def analyze_pbix_file (avail : Bool) (st : Store) (file_path project_name file_hash : Str)
    (now file_size : Nat) (model : Option Model) : Store × Option Nat :=
  if !avail then (st, none)
  else
    match model with
    | none => (st, none)
    | some m =>
      match findByName st.projects project_name with
      | some e =>
        if e.file_hash == file_hash then (st, some e.id)
        else storeModelData st file_path project_name file_hash now file_size m
      | none => storeModelData st file_path project_name file_hash now file_size m

end Norm

/-- Drop the whitespace `json.loads` skips between tokens. -/
def skipWs (s : Str) : Str := s.dropWhile pyWs

/-- The numeric value of a hexadecimal digit. -/
def hexVal (c : Char) : Nat :=
  if c.isDigit then c.toNat - 48
  else if 'a' ≤ c then c.toNat - 87
  else c.toNat - 55

/-- Whether a character is a hexadecimal digit. -/
def isHexChar (c : Char) : Bool :=
  c.isDigit || ('a' ≤ c && c ≤ 'f') || ('A' ≤ c && c ≤ 'F')

/-- Lex the remainder of a JSON string literal (the opening quote already
consumed): returns the decoded content and the input after the closing
quote.  The recognised escapes are the JSON ones; `\uXXXX` is decoded as a
single code point.  `fuel` bounds the recursion; callers pass the input
length. -/
def lexString : Nat → Str → Option (Str × Str)
  | 0, _ => none
  | _ + 1, [] => none
  | _ + 1, '"' :: rest => some ([], rest)
  | fuel + 1, '\\' :: e :: rest =>
    match e, rest with
    | '"', r => (lexString fuel r).map (fun p => ('"' :: p.1, p.2))
    | '\\', r => (lexString fuel r).map (fun p => ('\\' :: p.1, p.2))
    | '/', r => (lexString fuel r).map (fun p => ('/' :: p.1, p.2))
    | 'b', r => (lexString fuel r).map (fun p => (Char.ofNat 8 :: p.1, p.2))
    | 'f', r => (lexString fuel r).map (fun p => (Char.ofNat 12 :: p.1, p.2))
    | 'n', r => (lexString fuel r).map (fun p => ('\n' :: p.1, p.2))
    | 'r', r => (lexString fuel r).map (fun p => ('\r' :: p.1, p.2))
    | 't', r => (lexString fuel r).map (fun p => ('\t' :: p.1, p.2))
    | 'u', h1 :: h2 :: h3 :: h4 :: r =>
      if isHexChar h1 && isHexChar h2 && isHexChar h3 && isHexChar h4 then
        let v := 4096 * hexVal h1 + 256 * hexVal h2 + 16 * hexVal h3 + hexVal h4
        (lexString fuel r).map (fun p => (Char.ofNat v :: p.1, p.2))
      else none
    | _, _ => none
  | fuel + 1, c :: rest =>
    if c.toNat < 32 then none
    else (lexString fuel rest).map (fun p => (c :: p.1, p.2))

/-- Lex a JSON number starting at the current position: the literal's
characters and the rest of the input. -/
def lexNumber (s : Str) : Option (Str × Str) :=
  let (sign, s1) := match s with
    | '-' :: r => (['-'], r)
    | _ => (([] : Str), s)
  let intPart := s1.takeWhile Char.isDigit
  let s2 := s1.dropWhile Char.isDigit
  if intPart.isEmpty then none
  else
    let (frac, s3) := match s2 with
      | '.' :: r =>
        let ds := r.takeWhile Char.isDigit
        if ds.isEmpty then (([] : Str), s2) else ('.' :: ds, r.dropWhile Char.isDigit)
      | _ => (([] : Str), s2)
    let (ex, s4) := match s3 with
      | e :: r =>
        if e == 'e' || e == 'E' then
          let (es, r1) := match r with
            | '+' :: r2 => ((['+'] : Str), r2)
            | '-' :: r2 => ((['-'] : Str), r2)
            | _ => (([] : Str), r)
          let ds := r1.takeWhile Char.isDigit
          if ds.isEmpty then (([] : Str), s3)
          else (e :: es ++ ds, r1.dropWhile Char.isDigit)
        else (([] : Str), s3)
      | _ => (([] : Str), s3)
    some (sign ++ intPart ++ frac ++ ex, s4)

mutual

/-- Parse one JSON value at the current position, returning it with the
remaining input.  `fuel` bounds the recursion; the top entry point passes the
input length, which suffices since every recursive call consumes input. -/
def parseVal : Nat → Str → Option (Json × Str)
  | 0, _ => none
  | fuel + 1, s =>
    match skipWs s with
    | [] => none
    | '{' :: rest => parseObjBody fuel (skipWs rest) true
    | '[' :: rest => parseArrBody fuel (skipWs rest) true
    | '"' :: rest => (lexString rest.length.succ rest).map (fun p => (Json.str p.1, p.2))
    | 't' :: 'r' :: 'u' :: 'e' :: rest => some (Json.bool true, rest)
    | 'f' :: 'a' :: 'l' :: 's' :: 'e' :: rest => some (Json.bool false, rest)
    | 'n' :: 'u' :: 'l' :: 'l' :: rest => some (Json.null, rest)
    | s1 => (lexNumber s1).map (fun p => (Json.num p.1, p.2))

/-- Parse the members of an object after the `{` (`first` marks the position
right after the brace, where `}` closes an empty object). -/
def parseObjBody : Nat → Str → Bool → Option (Json × Str)
  | 0, _, _ => none
  | _ + 1, '}' :: rest, true => some (Json.obj [], rest)
  | fuel + 1, s, _ =>
    match skipWs s with
    | '"' :: rest =>
      match lexString rest.length.succ rest with
      | some (key, afterKey) =>
        match skipWs afterKey with
        | ':' :: afterColon =>
          match parseVal fuel afterColon with
          | some (v, afterVal) =>
            match skipWs afterVal with
            | ',' :: afterComma =>
              match parseObjBody fuel (skipWs afterComma) false with
              | some (Json.obj kvs, rest2) => some (Json.obj ((key, v) :: kvs), rest2)
              | _ => none
            | '}' :: rest2 => some (Json.obj [(key, v)], rest2)
            | _ => none
          | none => none
        | _ => none
      | none => none
    | _ => none

/-- Parse the elements of an array after the `[` (`first` marks the position
right after the bracket, where `]` closes an empty array). -/
def parseArrBody : Nat → Str → Bool → Option (Json × Str)
  | 0, _, _ => none
  | _ + 1, ']' :: rest, true => some (Json.arr [], rest)
  | fuel + 1, s, _ =>
    match parseVal fuel s with
    | some (v, afterVal) =>
      match skipWs afterVal with
      | ',' :: afterComma =>
        match parseArrBody fuel afterComma false with
        | some (Json.arr xs, rest2) => some (Json.arr (v :: xs), rest2)
        | _ => none
      | ']' :: rest2 => some (Json.arr [v], rest2)
      | _ => none
    | none => none

end

/-- Python `json.loads`: parse a complete JSON document, rejecting any
trailing non-whitespace. -/
def jsonLoads (s : Str) : Option Json :=
  match parseVal (s.length + 1) s with
  | some (v, rest) => if (skipWs rest).isEmpty then some v else none
  | none => none

/-- Python `data[key]` on a parsed JSON value, with failure standing for the
`KeyError`/`TypeError` the subscript raises when the key is absent or the
value is not an object. -/
def jlookup (d : Json) (key : Str) : Option Json :=
  match d with
  | .obj kvs => (kvs.find? (fun kv => kv.1 == key)).map (fun kv => kv.2)
  | _ => none

/-- The `SUCCESS:` marker (mcp_analyzer.py lines 239, 261-263). -/
def successMarker : Str := pstr "SUCCESS:"

/-- The keys the success path of `analyze_pbix_file_with_mcp` subscripts on
the decoded payload (mcp_analyzer.py lines 279-283): `data['tables']`,
`data['metadata']`, `data['measures']`, `data['relationships']` raise
`KeyError` when absent, while `schema` is read with
`data.get('schema', [])` and so is optional. -/
def requiredKeysPresent (data : Json) : Bool :=
  (jlookup data (pstr "tables")).isSome &&
  (jlookup data (pstr "metadata")).isSome &&
  (jlookup data (pstr "measures")).isSome &&
  (jlookup data (pstr "relationships")).isSome

/-- The success-detection and payload-recovery logic of
`analyze_pbix_file_with_mcp` applied to the subprocess's exit code and
combined output stream (mcp_analyzer.py lines 261-284): succeed exactly when
`returncode == 0`, `"SUCCESS:"` occurs in the stream, the text after the
first occurrence — stripped — parses as one JSON document, and subscripting
the four required keys raises no exception; any diagnostic text before the
first marker is skipped over by `find`.  `none` stands for the error branch
(lines 289-298) together with the exception handler (lines 304-306). -/
def parseExtractionOutput (returncode : Int) (stdout : Str) : Option Json :=
  if returncode == 0 then
    match findSub successMarker stdout with
    | some i =>
      let json_data := pyStrip (stdout.drop (i + 8))
      match jsonLoads json_data with
      | some data => if requiredKeysPresent data then some data else none
      | none => none
    | none => none
  else none

/-- Modelled from the spec: the success criterion as §6 words it — the stream
contains the literal marker `SUCCESS:` immediately followed by a single JSON
object with keys `tables`, `metadata`, `schema`, `measures`,
`relationships`.  Stated over the same stream model for comparison with
`parseExtractionOutput`. -/
def specSuccessCriterion (stdout : Str) : Bool :=
  match findSub successMarker stdout with
  | some i =>
    match jsonLoads (pyStrip (stdout.drop (i + 8))) with
    | some data =>
      (jlookup data (pstr "tables")).isSome &&
      (jlookup data (pstr "metadata")).isSome &&
      (jlookup data (pstr "schema")).isSome &&
      (jlookup data (pstr "measures")).isSome &&
      (jlookup data (pstr "relationships")).isSome
    | none => false
  | none => false

/-! ### General lemmas about the embedded operations -/

theorem foldl_fixed_of_id {α β : Type} (f : α → β → α) (l : List β) (acc : α)
    (h : ∀ a b, b ∈ l → f a b = a) : l.foldl f acc = acc := by
  induction l generalizing acc with
  | nil => rfl
  | cons x xs ih =>
    rw [List.foldl_cons, h acc x (by simp)]
    exact ih acc (fun a b hb => h a b (by simp [hb]))

theorem stepProject_no_scope (tl ty : Str) (acc : MCP.ImpactResults) (p : MCP.ProjectRow)
    (h1 : MCP.scopeHasTable ty = false) (h2 : MCP.scopeHasMeasure ty = false) :
    MCP.stepProject tl ty acc p = acc := by
  cases htd : p.tables_data <;>
    simp [MCP.stepProject, MCP.scanMeasuresPart, htd, h1, h2]

theorem stepProject_skip_tables_malformed (tl ty : Str) (acc : MCP.ImpactResults)
    (p : MCP.ProjectRow) (h1 : p.tables_data = Blob.malformed)
    (hsc : MCP.scopeHasTable ty = true) :
    MCP.stepProject tl ty acc p = acc := by
  simp [MCP.stepProject, h1, hsc]

theorem stepProject_skip_both_malformed (tl ty : Str) (acc : MCP.ImpactResults)
    (p : MCP.ProjectRow) (h1 : p.tables_data = Blob.malformed)
    (h2 : p.measures_data = Blob.malformed) :
    MCP.stepProject tl ty acc p = acc := by
  cases hsc : MCP.scopeHasTable ty
  · cases hsm : MCP.scopeHasMeasure ty <;>
      simp [MCP.stepProject, MCP.scanMeasuresPart, h1, h2, hsc, hsm]
  · simp [MCP.stepProject, h1, hsc]

theorem impact_skip_of_step_id (n : Nat) (A B : List MCP.ProjectRow) (p : MCP.ProjectRow)
    (t ty : Str) (hpass : (!p.tables_data.isNull || !p.measures_data.isNull) = true)
    (hstep : ∀ acc, MCP.stepProject (strLower t) ty acc p = acc) :
    MCP.analyze_impact ⟨n, A ++ p :: B⟩ t ty = MCP.analyze_impact ⟨n, A ++ B⟩ t ty := by
  unfold MCP.analyze_impact
  rw [show (MCP.Store.mk n (A ++ p :: B)).projects = A ++ p :: B from rfl,
    show (MCP.Store.mk n (A ++ B)).projects = A ++ B from rfl,
    List.filter_append, List.filter_append, List.filter_cons]
  rw [hpass]
  simp only [if_true]
  rw [List.foldl_append, List.foldl_append, List.foldl_cons, hstep]

theorem scanMeasuresPart_malformed (tl ty pn : Str) (acc : MCP.ImpactResults) :
    MCP.scanMeasuresPart tl ty pn Blob.malformed acc = acc := by
  cases hsm : MCP.scopeHasMeasure ty <;> simp [MCP.scanMeasuresPart, hsm]

theorem scanMeasuresPart_empty (tl ty pn : Str) (acc : MCP.ImpactResults) :
    MCP.scanMeasuresPart tl ty pn (Blob.ok []) acc = acc := by
  cases hsm : MCP.scopeHasMeasure ty <;> simp [MCP.scanMeasuresPart, hsm]

theorem stepProject_measures_malformed_eq_empty (tl ty : Str) (acc : MCP.ImpactResults)
    (p : MCP.ProjectRow) (hm : p.measures_data = Blob.malformed) :
    MCP.stepProject tl ty acc p =
      MCP.stepProject tl ty acc { p with measures_data := Blob.ok [] } := by
  cases htd : p.tables_data <;> cases hsc : MCP.scopeHasTable ty <;>
    simp [MCP.stepProject, htd, hsc, hm, scanMeasuresPart_malformed, scanMeasuresPart_empty]

theorem stepProject_tables_malformed_scope_off (tl ty : Str) (acc : MCP.ImpactResults)
    (p : MCP.ProjectRow) (hp : p.tables_data = Blob.malformed)
    (hsc : MCP.scopeHasTable ty = false) :
    MCP.stepProject tl ty acc p =
      MCP.stepProject tl ty acc { p with tables_data := Blob.ok [] } := by
  simp [MCP.stepProject, hp, hsc]

theorem impact_replace_of_step_eq (n : Nat) (A B : List MCP.ProjectRow)
    (p p2 : MCP.ProjectRow) (t ty : Str)
    (hpassP : (!p.tables_data.isNull || !p.measures_data.isNull) = true)
    (hpassQ : (!p2.tables_data.isNull || !p2.measures_data.isNull) = true)
    (hstep : ∀ acc, MCP.stepProject (strLower t) ty acc p =
      MCP.stepProject (strLower t) ty acc p2) :
    MCP.analyze_impact ⟨n, A ++ p :: B⟩ t ty =
      MCP.analyze_impact ⟨n, A ++ p2 :: B⟩ t ty := by
  unfold MCP.analyze_impact
  rw [show (MCP.Store.mk n (A ++ p :: B)).projects = A ++ p :: B from rfl,
    show (MCP.Store.mk n (A ++ p2 :: B)).projects = A ++ p2 :: B from rfl,
    List.filter_append, List.filter_append, List.filter_cons, List.filter_cons,
    hpassP, hpassQ]
  simp only [if_true]
  rw [List.foldl_append, List.foldl_append, List.foldl_cons, List.foldl_cons, hstep]

theorem buildUsage_skip (K : MCP.ProjectRow → List Str) (A B : List MCP.ProjectRow)
    (p : MCP.ProjectRow) (h : K p = []) :
    MCP.buildUsage K (A ++ p :: B) = MCP.buildUsage K (A ++ B) := by
  unfold MCP.buildUsage
  rw [List.foldl_append, List.foldl_append, List.foldl_cons, h]
  rfl

theorem sharedReport_skip (K : MCP.ProjectRow → List Str) (A B : List MCP.ProjectRow)
    (p : MCP.ProjectRow) (h : K p = []) :
    MCP.sharedReport K (A ++ p :: B) = MCP.sharedReport K (A ++ B) := by
  unfold MCP.sharedReport
  rw [buildUsage_skip K A B p h]

/-! ### The usage map as a finite map

The dict-of-sets built by the shared-entity reports is characterised through
the stream of `(key, project_name)` events the nested loops emit, and through
a declarative description `ownersOf` of each key's owning-project set. -/

/-- Association-list lookup on the usage map (Python `key in usage` /
`usage[key]`). -/
def lookupU (k : Str) : List (Str × List Str) → Option (List Str)
  | [] => none
  | (k1, v) :: rest => if k1 == k then some v else lookupU k rest

/-- The `(key, project_name)` events the nested loops of a shared-entity
report emit, in emission order. -/
def eventsOf (K : MCP.ProjectRow → List Str) (ps : List MCP.ProjectRow) : List (Str × Str) :=
  ps.flatMap (fun p => (K p).map (fun k => (k, p.name)))

/-- Folding the usage-map update over an event stream. -/
def usageFold (evs : List (Str × Str)) (acc : List (Str × List Str)) : List (Str × List Str) :=
  evs.foldl (fun a e => MCP.addUsage a e.1 e.2) acc

/-- The project names attached to the events carrying key `k`, in order. -/
def namesFor (k : Str) (evs : List (Str × Str)) : List Str :=
  (evs.filter (fun e => e.1 == k)).map (fun e => e.2)

/-- Folding set-insertion over a name stream. -/
def ownersAcc (l : List Str) (names : List Str) : List Str := names.foldl insertAbsent l

/-- The set of distinct project names owning key `k`, as the usage map ends up
recording it: first-occurrence order, no duplicates. -/
def ownersOf (K : MCP.ProjectRow → List Str) (ps : List MCP.ProjectRow) (k : Str) : List Str :=
  ownersAcc [] (namesFor k (eventsOf K ps))

/-- The report row a key with owner set `owners` is formatted to. -/
def mkSharedRow (k : Str) (owners : List Str) : SharedRow :=
  ⟨k, owners.length, joinComma (List.insertionSort strLeRel owners)⟩

/-- The keys of the usage map, in dict insertion order. -/
def keysU (u : List (Str × List Str)) : List Str := u.map Prod.fst

theorem buildUsage_eq_usageFold (K : MCP.ProjectRow → List Str) :
    ∀ (ps : List MCP.ProjectRow) (acc : List (Str × List Str)),
      ps.foldl (fun acc p => (K p).foldl (fun a k => MCP.addUsage a k p.name) acc) acc =
        usageFold (eventsOf K ps) acc := by
  intro ps
  induction ps with
  | nil => intro acc; rfl
  | cons p ps ih =>
    intro acc
    have hev : eventsOf K (p :: ps) = (K p).map (fun k => (k, p.name)) ++ eventsOf K ps := rfl
    rw [List.foldl_cons, ih, hev]
    show _ = List.foldl (fun a e => MCP.addUsage a e.1 e.2) acc
      ((K p).map (fun k => (k, p.name)) ++ eventsOf K ps)
    rw [List.foldl_append, List.foldl_map]
    rfl

theorem lookupU_addUsage (acc : List (Str × List Str)) (key pname k : Str) :
    lookupU k (MCP.addUsage acc key pname) =
      if key == k then
        (match lookupU k acc with
         | some l => some (insertAbsent l pname)
         | none => some [pname])
      else lookupU k acc := by
  induction acc with
  | nil =>
    by_cases hk : key = k <;> simp [MCP.addUsage, lookupU, hk]
  | cons kv rest ih =>
    obtain ⟨k1, v⟩ := kv
    by_cases h1 : k1 = key
    · subst h1
      by_cases hk : k1 = k <;> simp [MCP.addUsage, lookupU, hk]
    · by_cases hk : k1 = k
      · subst hk
        have hne : ¬(key == k1) = true := by simp [beq_iff_eq]; exact fun e => h1 e.symm
        simp [MCP.addUsage, lookupU, h1, hne, beq_iff_eq]
      · simp [MCP.addUsage, lookupU, h1, hk, ih]

theorem lookupU_usageFold (k : Str) :
    ∀ (evs : List (Str × Str)) (acc : List (Str × List Str)),
      lookupU k (usageFold evs acc) =
        match lookupU k acc with
        | some l => some (ownersAcc l (namesFor k evs))
        | none =>
          if namesFor k evs = [] then none
          else some (ownersAcc [] (namesFor k evs)) := by
  intro evs
  induction evs with
  | nil =>
    intro acc
    cases h : lookupU k acc <;> simp [usageFold, namesFor, ownersAcc, h]
  | cons e evs ih =>
    intro acc
    obtain ⟨k1, p1⟩ := e
    have hstep : usageFold ((k1, p1) :: evs) acc = usageFold evs (MCP.addUsage acc k1 p1) := rfl
    rw [hstep, ih, lookupU_addUsage]
    by_cases hk : k1 = k
    · subst hk
      have hn : namesFor k1 ((k1, p1) :: evs) = p1 :: namesFor k1 evs := by
        simp [namesFor]
      cases h : lookupU k1 acc <;> simp [h, hn, ownersAcc, insertAbsent]
    · have hn : namesFor k ((k1, p1) :: evs) = namesFor k evs := by
        simp [namesFor, hk]
      have hb : (k1 == k) = false := by simp [hk]
      rw [hb, hn]
      simp

theorem keysU_addUsage (acc : List (Str × List Str)) (key pname : Str) :
    keysU (MCP.addUsage acc key pname) =
      if (lookupU key acc).isSome then keysU acc else keysU acc ++ [key] := by
  induction acc with
  | nil => simp [MCP.addUsage, keysU, lookupU]
  | cons kv rest ih =>
    obtain ⟨k1, v⟩ := kv
    by_cases h : k1 = key
    · subst h
      simp [MCP.addUsage, keysU, lookupU]
    · have hb : (k1 == key) = false := by simp [h]
      have ha : MCP.addUsage ((k1, v) :: rest) key pname =
          (k1, v) :: MCP.addUsage rest key pname := by
        simp [MCP.addUsage, hb]
      have hl2 : lookupU key ((k1, v) :: rest) = lookupU key rest := by
        simp [lookupU, hb]
      rw [ha, hl2]
      show k1 :: keysU (MCP.addUsage rest key pname) = _
      rw [ih]
      cases hl : (lookupU key rest).isSome <;> simp [keysU, hl]

theorem lookupU_isSome_iff (k : Str) :
    ∀ u : List (Str × List Str), (lookupU k u).isSome = true ↔ k ∈ keysU u := by
  intro u
  induction u with
  | nil => simp [lookupU, keysU]
  | cons kv rest ih =>
    obtain ⟨k1, v⟩ := kv
    by_cases h : k1 = k
    · subst h
      simp [lookupU, keysU]
    · have hb : (k1 == k) = false := by simp [h]
      have h2 : ¬k = k1 := fun e => h e.symm
      simp [lookupU, keysU, hb, h2, ih]

theorem keysU_nodup_usageFold :
    ∀ (evs : List (Str × Str)) (acc : List (Str × List Str)),
      (keysU acc).Nodup → (keysU (usageFold evs acc)).Nodup := by
  intro evs
  induction evs with
  | nil => intro acc h; exact h
  | cons e evs ih =>
    intro acc h
    have hstep : usageFold (e :: evs) acc = usageFold evs (MCP.addUsage acc e.1 e.2) := rfl
    rw [hstep]
    apply ih
    rw [keysU_addUsage]
    cases hl : (lookupU e.1 acc).isSome
    · have hnm : e.1 ∉ keysU acc := by
        rw [← lookupU_isSome_iff]
        simp [hl]
      simp [List.nodup_append, h, hnm]
    · simp [h]

theorem mem_usage_iff_lookupU :
    ∀ (u : List (Str × List Str)), (keysU u).Nodup →
      ∀ (k : Str) (v : List Str), (k, v) ∈ u ↔ lookupU k u = some v := by
  intro u
  induction u with
  | nil => simp [lookupU]
  | cons kv rest ih =>
    intro hnd k v
    obtain ⟨k1, v1⟩ := kv
    have hnd1 : (keysU rest).Nodup := by
      have h0 : (k1 :: keysU rest).Nodup := hnd
      exact h0.of_cons
    have hk1 : k1 ∉ keysU rest := by
      have h0 : (k1 :: keysU rest).Nodup := hnd
      exact (List.nodup_cons.mp h0).1
    by_cases h : k1 = k
    · subst h
      have hnotin : ∀ w, (k1, w) ∈ rest → False := by
        intro w hw
        exact hk1 (by simpa [keysU] using List.mem_map_of_mem Prod.fst hw)
      constructor
      · intro hm
        rcases List.mem_cons.mp hm with he | hm2
        · rw [lookupU]
          simp at he
          simp [he]
        · exact absurd hm2 (fun hh => hnotin v hh)
      · intro hl
        rw [lookupU] at hl
        simp at hl
        simp [hl]
    · have hb : (k1 == k) = false := by simp [h]
      constructor
      · intro hm
        rcases List.mem_cons.mp hm with he | hm2
        · exact absurd (congrArg Prod.fst he) (by simpa using fun e => h e.symm)
        · rw [lookupU, hb]
          exact (ih hnd1 k v).mp hm2
      · intro hl
        rw [lookupU, hb] at hl
        exact List.mem_cons_of_mem _ ((ih hnd1 k v).mpr hl)

theorem mem_insertAbsent (l : List Str) (p a : Str) :
    a ∈ insertAbsent l p ↔ a ∈ l ∨ a = p := by
  by_cases hp : p ∈ l
  · have he : insertAbsent l p = l := by simp [insertAbsent, hp]
    rw [he]
    constructor
    · exact Or.inl
    · rintro (h | rfl)
      · exact h
      · exact hp
  · have he : insertAbsent l p = l ++ [p] := by simp [insertAbsent, hp]
    rw [he]
    simp [List.mem_append]

theorem nodup_insertAbsent (l : List Str) (p : Str) (h : l.Nodup) :
    (insertAbsent l p).Nodup := by
  by_cases hp : p ∈ l
  · have he : insertAbsent l p = l := by simp [insertAbsent, hp]
    rw [he]
    exact h
  · have he : insertAbsent l p = l ++ [p] := by simp [insertAbsent, hp]
    rw [he]
    simp [List.nodup_append, h, hp]

theorem mem_ownersAcc :
    ∀ (ns l : List Str) (a : Str), a ∈ ownersAcc l ns ↔ a ∈ l ∨ a ∈ ns := by
  intro ns
  induction ns with
  | nil => simp [ownersAcc]
  | cons n ns ih =>
    intro l a
    have hstep : ownersAcc l (n :: ns) = ownersAcc (insertAbsent l n) ns := rfl
    rw [hstep, ih, mem_insertAbsent, List.mem_cons]
    tauto

theorem nodup_ownersAcc :
    ∀ (ns l : List Str), l.Nodup → (ownersAcc l ns).Nodup := by
  intro ns
  induction ns with
  | nil => intro l h; exact h
  | cons n ns ih =>
    intro l h
    exact ih (insertAbsent l n) (nodup_insertAbsent l n h)

theorem mem_ownersOf (K : MCP.ProjectRow → List Str) (ps : List MCP.ProjectRow)
    (k a : Str) :
    a ∈ ownersOf K ps k ↔ ∃ p ∈ ps, p.name = a ∧ k ∈ K p := by
  rw [ownersOf, mem_ownersAcc]
  simp [namesFor, eventsOf, List.mem_filter, List.mem_flatMap, List.mem_map, beq_iff_eq]
  aesop

theorem nodup_ownersOf (K : MCP.ProjectRow → List Str) (ps : List MCP.ProjectRow) (k : Str) :
    (ownersOf K ps k).Nodup :=
  nodup_ownersAcc _ _ List.nodup_nil

theorem lookupU_buildUsage (K : MCP.ProjectRow → List Str) (ps : List MCP.ProjectRow)
    (k : Str) :
    lookupU k (MCP.buildUsage K ps) =
      if namesFor k (eventsOf K ps) = [] then none else some (ownersOf K ps k) := by
  have h : MCP.buildUsage K ps = usageFold (eventsOf K ps) [] :=
    buildUsage_eq_usageFold K ps []
  rw [h, lookupU_usageFold]
  rfl

theorem nodup_keys_buildUsage (K : MCP.ProjectRow → List Str) (ps : List MCP.ProjectRow) :
    (keysU (MCP.buildUsage K ps)).Nodup := by
  have h : MCP.buildUsage K ps = usageFold (eventsOf K ps) [] :=
    buildUsage_eq_usageFold K ps []
  rw [h]
  exact keysU_nodup_usageFold _ _ (by simp [keysU])

theorem ownersOf_eq_nil_of_namesFor_nil (K : MCP.ProjectRow → List Str)
    (ps : List MCP.ProjectRow) (k : Str)
    (h : namesFor k (eventsOf K ps) = []) : ownersOf K ps k = [] := by
  rw [ownersOf, h]
  rfl

theorem mem_sharedReport (K : MCP.ProjectRow → List Str) (ps : List MCP.ProjectRow)
    (r : SharedRow) :
    r ∈ MCP.sharedReport K ps ↔
      ∃ k, 1 < (ownersOf K ps k).length ∧ r = mkSharedRow k (ownersOf K ps k) := by
  unfold MCP.sharedReport
  rw [(List.perm_insertionSort countGE _).mem_iff]
  unfold MCP.sharedRows
  simp only [List.mem_map, List.mem_filter, decide_eq_true_eq]
  constructor
  · rintro ⟨⟨k, v⟩, ⟨hmem, hlen⟩, rfl⟩
    have hl : lookupU k (MCP.buildUsage K ps) = some v :=
      (mem_usage_iff_lookupU _ (nodup_keys_buildUsage K ps) k v).mp hmem
    rw [lookupU_buildUsage] at hl
    by_cases hn : namesFor k (eventsOf K ps) = []
    · rw [if_pos hn] at hl
      exact absurd hl (by simp)
    · rw [if_neg hn] at hl
      have hv : v = ownersOf K ps k := by
        injection hl with h1
        exact h1.symm
      subst hv
      exact ⟨k, hlen, rfl⟩
  · rintro ⟨k, hlen, rfl⟩
    refine ⟨(k, ownersOf K ps k), ⟨?_, hlen⟩, rfl⟩
    apply (mem_usage_iff_lookupU _ (nodup_keys_buildUsage K ps) k _).mpr
    rw [lookupU_buildUsage]
    by_cases hn : namesFor k (eventsOf K ps) = []
    · rw [ownersOf_eq_nil_of_namesFor_nil K ps k hn] at hlen
      exact absurd hlen (by simp)
    · rw [if_neg hn]

theorem sorted_sharedReport (K : MCP.ProjectRow → List Str) (ps : List MCP.ProjectRow) :
    List.Sorted countGE (MCP.sharedReport K ps) :=
  List.sorted_insertionSort countGE _

/-! ### Lemmas about marker search in the combined output stream -/

theorem hasSub_cons (n : Str) (c : Char) (t : Str) :
    hasSub n (c :: t) = (n.isPrefixOf (c :: t) || hasSub n t) := by
  unfold hasSub
  simp only [findSub]
  cases hp : n.isPrefixOf (c :: t) <;> simp [hp]

theorem findSub_self_append (n r : Str) (hn : n ≠ []) : findSub n (n ++ r) = some 0 := by
  match n with
  | [] => exact absurd rfl hn
  | c :: n' =>
    show findSub (c :: n') (c :: (n' ++ r)) = some 0
    have hp : (c :: n').isPrefixOf (c :: (n' ++ r)) = true :=
      List.isPrefixOf_iff_prefix.mpr (by exact List.prefix_append (c :: n') r)
    simp only [findSub]
    rw [hp]
    simp

theorem take_window (a n r : Str) (ha : a ≠ []) :
    ((a ++ (n ++ r)).take n.length) = ((a ++ n.take (n.length - 1)).take n.length) := by
  have h1 : 1 ≤ a.length := by
    cases a with
    | nil => exact absurd rfl ha
    | cons x xs => simp
  have hle : n.length - a.length ≤ n.length - 1 := by omega
  have e1 : (a ++ (n ++ r)).take n.length =
      a.take n.length ++ (n ++ r).take (n.length - a.length) :=
    List.take_append_eq_append_take
  have e2 : (n ++ r).take (n.length - a.length) = n.take (n.length - a.length) :=
    List.take_append_of_le_length (Nat.le_trans hle (Nat.sub_le _ _))
  have e3 : (a ++ n.take (n.length - 1)).take n.length =
      a.take n.length ++ (n.take (n.length - 1)).take (n.length - a.length) :=
    List.take_append_eq_append_take
  have e4 : (n.take (n.length - 1)).take (n.length - a.length) =
      n.take (n.length - a.length) := by
    rw [List.take_take, Nat.min_eq_left hle]
  rw [e1, e2, e3, e4]

theorem findSub_skip_prefix (n : Str) (hn : n ≠ []) :
    ∀ (p r : Str), hasSub n (p ++ n.take (n.length - 1)) = false →
      findSub n (p ++ (n ++ r)) = some p.length := by
  intro p
  induction p with
  | nil =>
    intro r _
    simpa using findSub_self_append n r hn
  | cons c p' ih =>
    intro r h
    have hcons : hasSub n (c :: (p' ++ n.take (n.length - 1))) = false := h
    rw [hasSub_cons] at hcons
    have hheadW : n.isPrefixOf (c :: (p' ++ n.take (n.length - 1))) = false := by
      cases hx : n.isPrefixOf (c :: (p' ++ n.take (n.length - 1)))
      · rfl
      · rw [hx] at hcons; simp at hcons
    have htail : hasSub n (p' ++ n.take (n.length - 1)) = false := by
      cases hx : hasSub n (p' ++ n.take (n.length - 1))
      · rfl
      · rw [hx] at hcons; simp at hcons
    have hhead : n.isPrefixOf (c :: (p' ++ (n ++ r))) = false := by
      cases hx : n.isPrefixOf (c :: (p' ++ (n ++ r)))
      · rfl
      · exfalso
        have hpre : n <+: (c :: p') ++ (n ++ r) := List.isPrefixOf_iff_prefix.mp hx
        have heq : n = ((c :: p') ++ (n ++ r)).take n.length :=
          List.prefix_iff_eq_take.mp hpre
        rw [take_window (c :: p') n r (by simp)] at heq
        have hpre2 : n <+: (c :: p') ++ n.take (n.length - 1) :=
          List.prefix_iff_eq_take.mpr heq
        have hx2 : n.isPrefixOf (c :: (p' ++ n.take (n.length - 1))) = true :=
          List.isPrefixOf_iff_prefix.mpr hpre2
        rw [hx2] at hheadW
        exact Bool.true_eq_false ▸ hheadW ▸ rfl
    show findSub n (c :: (p' ++ (n ++ r))) = some (p'.length + 1)
    simp only [findSub, hhead]
    rw [ih r htail]
    simp

theorem drop_append_marker (p n r : Str) :
    (p ++ (n ++ r)).drop (p.length + n.length) = r := by
  rw [← List.append_assoc, ← List.length_append]
  exact List.drop_left (p ++ n) r

theorem parseOut_isSome_iff (rc : Int) (out : Str) :
    (parseExtractionOutput rc out).isSome = true ↔
      rc = 0 ∧ ∃ i, findSub successMarker out = some i ∧
        ∃ d, jsonLoads (pyStrip (out.drop (i + 8))) = some d ∧
          requiredKeysPresent d = true := by
  unfold parseExtractionOutput
  by_cases hrc : rc = 0
  · subst hrc
    simp only [if_pos (by rfl : ((0 : Int) == 0) = true)]
    cases hf : findSub successMarker out with
    | none => simp
    | some i =>
      simp only []
      cases hj : jsonLoads (pyStrip (out.drop (i + 8))) with
      | none => simp [hj]
      | some d =>
        cases hk : requiredKeysPresent d <;> simp [hj, hk]
  · have hb : (rc == 0) = false := by simpa using hrc
    simp [hb, hrc]

theorem parseOut_ignores_prefix (rc : Int) (p rest : Str)
    (h : hasSub successMarker (p ++ successMarker.take 7) = false) :
    parseExtractionOutput rc (p ++ (successMarker ++ rest)) =
      parseExtractionOutput rc (successMarker ++ rest) := by
  have hm : successMarker ≠ [] := by decide
  have h7 : successMarker.take (successMarker.length - 1) = successMarker.take 7 := rfl
  have hf1 : findSub successMarker (p ++ (successMarker ++ rest)) = some p.length :=
    findSub_skip_prefix successMarker hm p rest (h7 ▸ h)
  have hf2 : findSub successMarker (successMarker ++ rest) = some 0 :=
    findSub_self_append successMarker rest hm
  unfold parseExtractionOutput
  rw [hf1, hf2]
  have hd1 : (p ++ (successMarker ++ rest)).drop (p.length + 8) = rest := by
    have h8 : (8 : Nat) = successMarker.length := rfl
    rw [h8]
    exact drop_append_marker p successMarker rest
  have hd2 : (successMarker ++ rest).drop 8 = rest := by
    have h8 : (8 : Nat) = successMarker.length := rfl
    rw [h8]
    exact List.drop_left successMarker rest
  simp [hd1, hd2]

/-! ### Fixtures -/

/-- A denormalized project row with the fields the claims vary; the remaining
columns are fixed. -/
def mkProj (i : Nat) (nm : String) (tb : Blob (List TableRec))
    (ms : Blob (List MeasureRec)) : MCP.ProjectRow :=
  { id := i, name := pstr nm, file_path := pstr "f", file_hash := pstr "h",
    last_analyzed := 0, model_size := 0,
    tables_data := tb, metadata_data := .null, schema_data := .null,
    measures_data := ms, relationships_data := .null }

/-- Normalized store holding one fully analyzed project (id 1, hash `h1`)
with one table, column, measure, relationship and power query. -/
def c1Store : Norm.Store :=
  { next_project_id := 2, next_table_id := 2, next_column_id := 2,
    next_measure_id := 2, next_rel_id := 2, next_query_id := 2,
    projects := [⟨1, pstr "P", pstr "f", pstr "h1", 0, 5, 1, 1⟩],
    tables := [⟨1, 1, pstr "T", 3, 1⟩],
    columns := [⟨1, 1, pstr "C", pstr "Unknown", false⟩],
    measures := [⟨1, 1, pstr "T", pstr "M", pstr "SUM(T[C])"⟩],
    relationships := [⟨1, 1, pstr "T", pstr "C", pstr "U", pstr "D", pstr "1:M"⟩],
    power_queries := [⟨1, 1, pstr "Q", pstr "let x = 1"⟩] }

/-- The model of the changed file re-analyzed over `c1Store`. -/
def c1Model : Norm.Model :=
  { tables := [⟨pstr "T2", 4, [⟨pstr "C2", pstr "Unknown", false⟩], [⟨pstr "M2", pstr "X"⟩]⟩],
    relationships := [⟨pstr "T2", pstr "C2", pstr "U2", pstr "D2", pstr "1:1"⟩],
    queries := [⟨pstr "Q2", pstr "let y = 2"⟩] }

/-- Denormalized store holding one analyzed project `P` with hash `h1` and
stored table and measure data. -/
def c2Store : MCP.Store :=
  { next_id := 2,
    projects := [{ id := 1, name := pstr "P", file_path := pstr "f",
                   file_hash := pstr "h1", last_analyzed := 0, model_size := 5,
                   tables_data := .ok [⟨pstr "T", 3, 1, [⟨pstr "C", pstr "Unknown", false⟩]⟩],
                   metadata_data := .null, schema_data := .null,
                   measures_data := .ok [⟨pstr "T", pstr "M", pstr "SUM(T[C])"⟩],
                   relationships_data := .null }] }

/-- A store whose single project has a column literally named `Sales`. -/
def c3Store : MCP.Store :=
  ⟨2, [mkProj 1 "A" (.ok [⟨pstr "T", 0, 1, [⟨pstr "Sales", pstr "Unknown", false⟩]⟩]) .null]⟩

/-- Three projects: table `Sales` in `A` and `B` only, `Extra` only in `A`,
`Other` only in `C`. -/
def c4Store : MCP.Store :=
  { next_id := 4,
    projects :=
      [mkProj 1 "A" (.ok [⟨pstr "Sales", 10, 1, [⟨pstr "Amount", pstr "Unknown", false⟩]⟩,
                          ⟨pstr "Extra", 2, 0, []⟩]) .null,
       mkProj 2 "B" (.ok [⟨pstr "Sales", 7, 0, []⟩]) .null,
       mkProj 3 "C" (.ok [⟨pstr "Other", 1, 0, []⟩]) .null] }

/-- A stored project `P` with hash `h`. -/
def c5Row : MCP.ProjectRow := mkProj 1 "P" (.ok []) (.ok [])

/-- Denormalized store holding only `c5Row`. -/
def c5Store : MCP.Store := ⟨2, [c5Row]⟩

/-- A normalized project row `P` with hash `h`. -/
def c5NRow : Norm.NProjectRow := ⟨1, pstr "P", pstr "f", pstr "h", 0, 0, 0, 0⟩

/-- Normalized store holding only `c5NRow`. -/
def c5NStore : Norm.Store := ⟨2, 1, 1, 1, 1, 1, [c5NRow], [], [], [], [], []⟩

/-- An empty extraction model. -/
def c5Model : Norm.Model := ⟨[], [], []⟩

/-- One project with a table `SalesData` and a measure `Total Revenue` whose
DAX expression mentions `Sales`. -/
def c6Store : MCP.Store :=
  ⟨2, [mkProj 1 "A" (.ok [⟨pstr "SalesData", 0, 0, []⟩])
      (.ok [⟨pstr "Sales", pstr "Total Revenue", pstr "SUM(Sales[Amount])"⟩])]⟩

/-- A combined output stream with a diagnostic line, the marker, and a payload
lacking the `schema` key. -/
def c7Stream : Str :=
  pstr "TABLES_TYPE: info\nSUCCESS:\x7b\"tables\":[],\"metadata\":\x7b\x7d,\"measures\":[],\"relationships\":[]\x7d"

/-- A combined output stream whose payload carries all five spec keys. -/
def c7FullStream : Str :=
  pstr "SUCCESS:\x7b\"tables\":[],\"metadata\":\x7b\x7d,\"schema\":[],\"measures\":[],\"relationships\":[]\x7d"

/-- A bare payload text (all four required keys, no `schema`). -/
def c7Payload : Str :=
  pstr "\x7b\"tables\":[],\"metadata\":\x7b\x7d,\"measures\":[],\"relationships\":[]\x7d"

/-- A healthy project `A` owning table `Sales`. -/
def c8A : MCP.ProjectRow := mkProj 1 "A" (.ok [⟨pstr "Sales", 0, 0, []⟩]) (.ok [])

/-- A healthy project `B` owning table `Sales`. -/
def c8B : MCP.ProjectRow := mkProj 2 "B" (.ok [⟨pstr "Sales", 0, 0, []⟩]) (.ok [])

/-- A project whose stored blobs are both corrupt. -/
def c8Bad : MCP.ProjectRow := mkProj 3 "X" .malformed .malformed

/-- A project whose `measures_data` is corrupt while its `tables_data` is
valid and holds a table named `Sales`. -/
def c8M : MCP.ProjectRow := mkProj 2 "M" (.ok [⟨pstr "Sales", 0, 0, []⟩]) .malformed

/-- A healthy project with a measure matching `Revenue` by name and with a DAX
expression mentioning `Sales`. -/
def c9Good : MCP.ProjectRow :=
  mkProj 1 "A" (.ok [⟨pstr "T", 0, 0, []⟩])
    (.ok [⟨pstr "T", pstr "Total Revenue", pstr "SUM(Sales[Amount])"⟩])

/-- A project whose `tables_data` is corrupt while its `measures_data` is valid
and holds the same matching measure. -/
def c9Bad : MCP.ProjectRow :=
  mkProj 2 "B" .malformed
    (.ok [⟨pstr "T", pstr "Total Revenue", pstr "SUM(Sales[Amount])"⟩])

/-- An empty extraction payload. -/
def c10Payload : MCP.Payload := ⟨[], ⟨0, 0, 0, none⟩, Json.arr [], [], []⟩

/-! ### The claims -/

/-- C1: re-analyzing a changed file under a stored name is claimed to leave
exactly the new project row and new child rows, with no child row of the
earlier analysis remaining reachable or orphaned.  The normalized
implementation violates this: `INSERT OR REPLACE INTO projects` assigns a
fresh id, the five `DELETE ... WHERE project_id = ?` statements then run with
that fresh id and delete nothing, so every old child row (table, column,
measure, relationship, power query) survives, orphaned under the deleted old
project id.  This theorem evaluates the embedded `analyze_pbix_file` at the
failing input: the result id is the fresh 2, every old child row of project
id 1 is still stored, and no project row with id 1 exists. -/
theorem c1_reanalysis_leaves_orphaned_child_rows :
    (Norm.analyze_pbix_file true c1Store (pstr "f") (pstr "P") (pstr "h2") 1 6
        (some c1Model)).2 = some 2 ∧
    (⟨1, 1, pstr "T", 3, 1⟩ : Norm.NTableRow) ∈
      (Norm.analyze_pbix_file true c1Store (pstr "f") (pstr "P") (pstr "h2") 1 6
        (some c1Model)).1.tables ∧
    (⟨1, 1, pstr "C", pstr "Unknown", false⟩ : Norm.NColumnRow) ∈
      (Norm.analyze_pbix_file true c1Store (pstr "f") (pstr "P") (pstr "h2") 1 6
        (some c1Model)).1.columns ∧
    (⟨1, 1, pstr "T", pstr "M", pstr "SUM(T[C])"⟩ : Norm.NMeasureRow) ∈
      (Norm.analyze_pbix_file true c1Store (pstr "f") (pstr "P") (pstr "h2") 1 6
        (some c1Model)).1.measures ∧
    (⟨1, 1, pstr "T", pstr "C", pstr "U", pstr "D", pstr "1:M"⟩ : Norm.NRelRow) ∈
      (Norm.analyze_pbix_file true c1Store (pstr "f") (pstr "P") (pstr "h2") 1 6
        (some c1Model)).1.relationships ∧
    (⟨1, 1, pstr "Q", pstr "let x = 1"⟩ : Norm.NQueryRow) ∈
      (Norm.analyze_pbix_file true c1Store (pstr "f") (pstr "P") (pstr "h2") 1 6
        (some c1Model)).1.power_queries ∧
    ((Norm.analyze_pbix_file true c1Store (pstr "f") (pstr "P") (pstr "h2") 1 6
        (some c1Model)).1.projects.all (fun p => p.id != 1)) = true := by
  decide

/-- C2 counterexample: the claim says a failed analyze leaves the stored state
unchanged, in particular that data previously stored under the name is still
present.  On `c2Store` (project `P` stored with hash `h1`), analyzing a
changed file (hash `h2`) whose extraction fails returns `None` — but the
store ends up empty: the old row was deleted and committed before the
extraction was attempted. -/
theorem c2_failed_extraction_loses_prior_data :
    (MCP.analyze_pbix_file_with_mcp c2Store (pstr "f2") (pstr "P") (pstr "h2") 1 9
        MCP.ExtractOutcome.failure).1.projects.isEmpty = true ∧
    (MCP.analyze_pbix_file_with_mcp c2Store (pstr "f2") (pstr "P") (pstr "h2") 1 9
        MCP.ExtractOutcome.failure).2 = none ∧
    c2Store.projects.isEmpty = false := by
  refine ⟨rfl, rfl, rfl⟩

/-- C2 amended: a failed or timed-out extraction reports failure (`None`) and
commits no new or partial project row; a project stored under the same name
with the same hash is untouched and its id returned without extraction being
attempted, but a project stored with a different hash has already been
deleted when the extraction runs, so its prior data is not preserved. -/
theorem c2_failed_extraction_commits_no_new_row :
    ∀ (st : MCP.Store) (fp pn h : Str) (now sz : Nat) (ext : MCP.ExtractOutcome),
      ext = MCP.ExtractOutcome.timeout ∨ ext = MCP.ExtractOutcome.failure →
      MCP.analyze_pbix_file_with_mcp st fp pn h now sz ext =
        (match MCP.findByName st.projects pn with
         | some e =>
           if e.file_hash == h then (st, some e.id) else (MCP.deleteByName st pn, none)
         | none => (st, none)) := by
  intro st fp pn h now sz ext hx
  unfold MCP.analyze_pbix_file_with_mcp
  rcases hx with hx | hx <;> subst hx <;>
    cases hf : MCP.findByName st.projects pn <;>
      simp [MCP.runExtract]

/-- C2 witness: the amended theorem applied to `c2Store` with a timed-out
extraction of a changed file: the result is the store with `P` deleted, and
`None`. -/
theorem c2_failed_extraction_commits_no_new_row_witness :
    MCP.analyze_pbix_file_with_mcp c2Store (pstr "f2") (pstr "P") (pstr "h2") 1 9
        MCP.ExtractOutcome.timeout = (MCP.deleteByName c2Store (pstr "P"), none) := by
  rw [c2_failed_extraction_commits_no_new_row c2Store (pstr "f2") (pstr "P") (pstr "h2")
    1 9 MCP.ExtractOutcome.timeout (Or.inl rfl)]
  rfl

/-- C3: the claim says column names are checked whenever the scope includes
`column`.  In the code the column check lives inside the branch gated by
`search_type in ["all", "table"]`, and no branch tests for `"column"`, so a
search with scope `column` scans nothing and returns four empty lists — even
on a store with a column literally named by the term (which scope `all` does
find). -/
theorem c3_scope_column_searches_nothing :
    (∀ (st : MCP.Store) (t : Str),
        MCP.analyze_impact st t (pstr "column") = MCP.emptyResults) ∧
    MCP.analyze_impact c3Store (pstr "Sales") (pstr "column") = MCP.emptyResults ∧
    (MCP.analyze_impact c3Store (pstr "Sales") (pstr "all")).projects_using_column =
      [⟨pstr "A", pstr "T", pstr "Sales", pstr "Column Name"⟩] := by
  refine ⟨?_, ?_, ?_⟩
  · intro st t
    unfold MCP.analyze_impact
    exact foldl_fixed_of_id _ _ _ (fun a b _ => stepProject_no_scope _ _ a b rfl rfl)
  · decide
  · decide

/-- C4: each shared-entity report returns exactly the keys owned by more than
one distinct project — the owner sets are characterised extensionally and are
duplicate-free — as rows `(name, project_count, projects)` with
`project_count` the owner-set size and `projects` the sorted comma-joined
owner names, ordered by descending `project_count`; and on the three-project
fixture where table `Sales` lives in `A` and `B` only, `get_shared_tables`
returns exactly the single row `(Sales, 2, "A, B")`. -/
theorem c4_shared_reports_characterization :
    (∀ (st : MCP.Store) (r : SharedRow),
        r ∈ MCP.get_shared_tables st ↔
          ∃ k, 1 < (ownersOf (fun p => MCP.tableKeys p.tables_data) st.projects k).length ∧
            r = mkSharedRow k (ownersOf (fun p => MCP.tableKeys p.tables_data) st.projects k)) ∧
    (∀ (st : MCP.Store) (r : SharedRow),
        r ∈ MCP.get_shared_measures st ↔
          ∃ k, 1 < (ownersOf (fun p => MCP.measureKeys p.measures_data) st.projects k).length ∧
            r = mkSharedRow k (ownersOf (fun p => MCP.measureKeys p.measures_data) st.projects k)) ∧
    (∀ (st : MCP.Store) (r : SharedRow),
        r ∈ MCP.get_shared_columns st ↔
          ∃ k, 1 < (ownersOf (fun p => MCP.columnKeys p.tables_data) st.projects k).length ∧
            r = mkSharedRow k (ownersOf (fun p => MCP.columnKeys p.tables_data) st.projects k)) ∧
    (∀ (K : MCP.ProjectRow → List Str) (ps : List MCP.ProjectRow) (k a : Str),
        a ∈ ownersOf K ps k ↔ ∃ p ∈ ps, p.name = a ∧ k ∈ K p) ∧
    (∀ (K : MCP.ProjectRow → List Str) (ps : List MCP.ProjectRow) (k : Str),
        (ownersOf K ps k).Nodup) ∧
    (∀ st : MCP.Store, List.Sorted countGE (MCP.get_shared_tables st)) ∧
    (∀ st : MCP.Store, List.Sorted countGE (MCP.get_shared_measures st)) ∧
    (∀ st : MCP.Store, List.Sorted countGE (MCP.get_shared_columns st)) ∧
    MCP.get_shared_tables c4Store = [⟨pstr "Sales", 2, pstr "A, B"⟩] := by
  refine ⟨fun st r => ?_, fun st r => ?_, fun st r => ?_, mem_ownersOf, nodup_ownersOf,
    fun st => ?_, fun st => ?_, fun st => ?_, by decide⟩
  · exact mem_sharedReport (fun p => MCP.tableKeys p.tables_data) st.projects r
  · exact mem_sharedReport (fun p => MCP.measureKeys p.measures_data) st.projects r
  · exact mem_sharedReport (fun p => MCP.columnKeys p.tables_data) st.projects r
  · exact sorted_sharedReport _ st.projects
  · exact sorted_sharedReport _ st.projects
  · exact sorted_sharedReport _ st.projects

/-- C5: analyzing a file whose hash equals the stored hash of the project of
the same name is a no-op: both implementations return the existing id and
leave the store untouched, whatever the extraction would have produced. -/
theorem c5_unchanged_hash_is_noop :
    (∀ (st : MCP.Store) (fp pn h : Str) (now sz : Nat) (ext : MCP.ExtractOutcome)
        (e : MCP.ProjectRow), MCP.findByName st.projects pn = some e → e.file_hash = h →
        MCP.analyze_pbix_file_with_mcp st fp pn h now sz ext = (st, some e.id)) ∧
    (∀ (st : Norm.Store) (fp pn h : Str) (now sz : Nat) (m : Norm.Model)
        (e : Norm.NProjectRow), Norm.findByName st.projects pn = some e → e.file_hash = h →
        Norm.analyze_pbix_file true st fp pn h now sz (some m) = (st, some e.id)) := by
  constructor
  · intro st fp pn h now sz ext e hf hh
    unfold MCP.analyze_pbix_file_with_mcp
    rw [hf]
    simp [hh]
  · intro st fp pn h now sz m e hf hh
    unfold Norm.analyze_pbix_file
    rw [hf]
    simp [hh]

/-- C5 witness: re-analyzing the stored project `P` with its stored hash `h`
returns id 1 and the unchanged store, in both implementations. -/
theorem c5_unchanged_hash_is_noop_witness :
    MCP.analyze_pbix_file_with_mcp c5Store (pstr "f") (pstr "P") (pstr "h") 0 0
        MCP.ExtractOutcome.failure = (c5Store, some 1) ∧
    Norm.analyze_pbix_file true c5NStore (pstr "f") (pstr "P") (pstr "h") 0 0
        (some c5Model) = (c5NStore, some 1) :=
  ⟨c5_unchanged_hash_is_noop.1 c5Store (pstr "f") (pstr "P") (pstr "h") 0 0
      MCP.ExtractOutcome.failure c5Row rfl rfl,
   c5_unchanged_hash_is_noop.2 c5NStore (pstr "f") (pstr "P") (pstr "h") 0 0
      c5Model c5NRow rfl rfl⟩

/-- C6: searching lowers the term once and compares lowered strings
throughout, so any two case-variants of a term produce identical results in
all four lists, for every store and scope; on the fixture, `sales` and
`SALES` agree and do match table `SalesData`. -/
theorem c6_search_case_insensitive :
    (∀ (st : MCP.Store) (t t2 ty : Str), strLower t = strLower t2 →
        MCP.analyze_impact st t ty = MCP.analyze_impact st t2 ty) ∧
    MCP.analyze_impact c6Store (pstr "sales") (pstr "all") =
      MCP.analyze_impact c6Store (pstr "SALES") (pstr "all") ∧
    (MCP.analyze_impact c6Store (pstr "sales") (pstr "all")).projects_using_table =
      [⟨pstr "A", pstr "SalesData", pstr "Table Name"⟩] := by
  refine ⟨?_, ?_, ?_⟩
  · intro st t t2 ty h
    unfold MCP.analyze_impact
    rw [h]
  · decide
  · decide

/-- C6 witness: the invariance applied to `revenue` vs `REVENUE` under scope
`measure` on the fixture store. -/
theorem c6_search_case_insensitive_witness :
    MCP.analyze_impact c6Store (pstr "revenue") (pstr "measure") =
      MCP.analyze_impact c6Store (pstr "REVENUE") (pstr "measure") :=
  c6_search_case_insensitive.1 c6Store (pstr "revenue") (pstr "REVENUE") (pstr "measure")
    (by decide)

/-- C7 counterexample: the claim says the run is successful exactly when the
stream holds `SUCCESS:` followed by a JSON object with keys `tables`,
`metadata`, `schema`, `measures`, `relationships`.  Both directions fail at
concrete inputs: the code accepts `c7Stream`, whose payload has no `schema`
key (read via `data.get('schema', [])`), and it rejects `c7FullStream` —
marker and all five keys present — when the exit code is non-zero. -/
theorem c7_schema_key_not_required :
    ((parseExtractionOutput 0 c7Stream).isSome = true ∧
      specSuccessCriterion c7Stream = false) ∧
    ((parseExtractionOutput 1 c7FullStream).isSome = false ∧
      specSuccessCriterion c7FullStream = true) := by
  refine ⟨⟨rfl, rfl⟩, ⟨rfl, rfl⟩⟩

/-- C7 amended: the extractor treats the run as successful exactly when the
exit code is 0, the stream contains `SUCCESS:`, and the text after the first
occurrence — stripped — parses as one JSON document on which the four
subscripted keys `tables`, `metadata`, `measures`, `relationships` are
present (`schema` is optional and defaulted); and any text before the first
marker is ignored: for a diagnostic prefix not containing the marker (nor
completing one at the boundary) the parse result is unchanged. -/
theorem c7_success_marker_characterization :
    (∀ (rc : Int) (out : Str),
        (parseExtractionOutput rc out).isSome = true ↔
          rc = 0 ∧ ∃ i, findSub successMarker out = some i ∧
            ∃ d, jsonLoads (pyStrip (out.drop (i + 8))) = some d ∧
              requiredKeysPresent d = true) ∧
    (∀ (rc : Int) (p rest : Str),
        hasSub successMarker (p ++ successMarker.take 7) = false →
        parseExtractionOutput rc (p ++ (successMarker ++ rest)) =
          parseExtractionOutput rc (successMarker ++ rest)) :=
  ⟨parseOut_isSome_iff, parseOut_ignores_prefix⟩

/-- C7 witness: a concrete diagnostic line before the marker changes
nothing. -/
theorem c7_success_marker_characterization_witness :
    parseExtractionOutput 0 (pstr "TABLES_TYPE: info\n" ++ (successMarker ++ c7Payload)) =
      parseExtractionOutput 0 (successMarker ++ c7Payload) :=
  c7_success_marker_characterization.2 0 (pstr "TABLES_TYPE: info\n") c7Payload (by decide)

/-- C8 counterexample: the claim says the project owning the malformed blob
is excluded from search aggregation.  It is not: project `M` stores corrupt
`measures_data` next to valid `tables_data` holding a table `Sales`, and
`analyze_impact('Sales', 'all')` still returns `M`'s table match. -/
theorem c8_valid_blob_of_malformed_project_still_searched :
    c8M.measures_data = Blob.malformed ∧
    (MCP.analyze_impact ⟨3, [c8M]⟩ (pstr "Sales") (pstr "all")).projects_using_table =
      [⟨pstr "M", pstr "Sales", pstr "Table Name"⟩] :=
  ⟨rfl, by decide⟩

/-- C8 amended: a blob that is not valid JSON never raises out of the reports
or search, and what is excluded is the malformed blob's data, not necessarily
the whole project: with corrupt `tables_data`, shared-tables and
shared-columns equal the reports without that project; with corrupt
`measures_data`, likewise shared-measures; search treats corrupt
`measures_data` as an empty measure list (the project's valid table data is
still searched and returned) for every term and scope, and treats corrupt
`tables_data` by excluding the project entirely when the scope is `all` or
`table` (the measures scan is suppressed too) and as an empty table list
under every other scope.  Every other project's data is always still
included. -/
theorem c8_malformed_blob_excluded_not_project :
    (∀ (n : Nat) (A B : List MCP.ProjectRow) (p : MCP.ProjectRow),
        p.tables_data = Blob.malformed →
        MCP.get_shared_tables ⟨n, A ++ p :: B⟩ = MCP.get_shared_tables ⟨n, A ++ B⟩ ∧
        MCP.get_shared_columns ⟨n, A ++ p :: B⟩ = MCP.get_shared_columns ⟨n, A ++ B⟩) ∧
    (∀ (n : Nat) (A B : List MCP.ProjectRow) (p : MCP.ProjectRow),
        p.measures_data = Blob.malformed →
        MCP.get_shared_measures ⟨n, A ++ p :: B⟩ = MCP.get_shared_measures ⟨n, A ++ B⟩) ∧
    (∀ (n : Nat) (A B : List MCP.ProjectRow) (p : MCP.ProjectRow) (t ty : Str),
        p.measures_data = Blob.malformed →
        MCP.analyze_impact ⟨n, A ++ p :: B⟩ t ty =
          MCP.analyze_impact ⟨n, A ++ { p with measures_data := Blob.ok [] } :: B⟩ t ty) ∧
    (∀ (n : Nat) (A B : List MCP.ProjectRow) (p : MCP.ProjectRow) (t ty : Str),
        p.tables_data = Blob.malformed → MCP.scopeHasTable ty = true →
        MCP.analyze_impact ⟨n, A ++ p :: B⟩ t ty = MCP.analyze_impact ⟨n, A ++ B⟩ t ty) ∧
    (∀ (n : Nat) (A B : List MCP.ProjectRow) (p : MCP.ProjectRow) (t ty : Str),
        p.tables_data = Blob.malformed → MCP.scopeHasTable ty = false →
        MCP.analyze_impact ⟨n, A ++ p :: B⟩ t ty =
          MCP.analyze_impact ⟨n, A ++ { p with tables_data := Blob.ok [] } :: B⟩ t ty) := by
  refine ⟨fun n A B p hp => ⟨?_, ?_⟩, fun n A B p hp => ?_, fun n A B p t ty hm => ?_,
    fun n A B p t ty hp hsc => ?_, fun n A B p t ty hp hsc => ?_⟩
  · exact sharedReport_skip _ A B p (by simp [MCP.tableKeys, hp])
  · exact sharedReport_skip _ A B p (by simp [MCP.columnKeys, hp])
  · exact sharedReport_skip _ A B p (by simp [MCP.measureKeys, hp])
  · exact impact_replace_of_step_eq n A B p _ t ty (by simp [hm, Blob.isNull])
      (by simp [Blob.isNull])
      (fun acc => stepProject_measures_malformed_eq_empty _ _ acc p hm)
  · exact impact_skip_of_step_id n A B p t ty (by simp [hp, Blob.isNull])
      (fun acc => stepProject_skip_tables_malformed _ _ acc p hp hsc)
  · exact impact_replace_of_step_eq n A B p _ t ty (by simp [hp, Blob.isNull])
      (by simp [Blob.isNull])
      (fun acc => stepProject_tables_malformed_scope_off _ _ acc p hp hsc)

/-- C8 witness: with the doubly-corrupt project `X` between `A` and `B` the
shared-tables report agrees with the store without `X` (and still carries the
`Sales` row owned by `A` and `B`); with `M` holding corrupt `measures_data`
next to valid tables, search equals the store where `M`'s measures are empty,
and both `A`'s and `M`'s table matches are returned. -/
theorem c8_malformed_blob_excluded_not_project_witness :
    MCP.get_shared_tables ⟨4, [c8A, c8Bad, c8B]⟩ = MCP.get_shared_tables ⟨4, [c8A, c8B]⟩ ∧
    MCP.get_shared_tables ⟨4, [c8A, c8B]⟩ = [⟨pstr "Sales", 2, pstr "A, B"⟩] ∧
    MCP.analyze_impact ⟨3, [c8A, c8M]⟩ (pstr "Sales") (pstr "all") =
      MCP.analyze_impact ⟨3, [c8A, { c8M with measures_data := Blob.ok [] }]⟩
        (pstr "Sales") (pstr "all") ∧
    (MCP.analyze_impact ⟨3, [c8A, c8M]⟩ (pstr "Sales") (pstr "all")).projects_using_table =
      [⟨pstr "A", pstr "Sales", pstr "Table Name"⟩,
       ⟨pstr "M", pstr "Sales", pstr "Table Name"⟩] :=
  ⟨(c8_malformed_blob_excluded_not_project.1 4 [c8A] [c8B] c8Bad rfl).1,
   by decide,
   c8_malformed_blob_excluded_not_project.2.2.1 3 [c8A] [] c8M (pstr "Sales") (pstr "all") rfl,
   by decide⟩

/-- C9: when a project's `tables_data` fails to parse under scope `all` or
`table`, the `continue` in the tables branch skips the measures branch for
that project too, so the project contributes no measure-name and no
DAX-expression matches even if its `measures_data` is valid: search results
equal those of the store without that project. -/
theorem c9_malformed_tables_blob_skips_measures :
    ∀ (n : Nat) (A B : List MCP.ProjectRow) (p : MCP.ProjectRow) (t ty : Str),
      p.tables_data = Blob.malformed →
      (ty = pstr "all" ∨ ty = pstr "table") →
      MCP.analyze_impact ⟨n, A ++ p :: B⟩ t ty = MCP.analyze_impact ⟨n, A ++ B⟩ t ty := by
  intro n A B p t ty hp hty
  have hsc : MCP.scopeHasTable ty = true := by
    rcases hty with h | h <;> subst h <;> rfl
  exact impact_skip_of_step_id n A B p t ty (by simp [hp, Blob.isNull])
    (fun acc => stepProject_skip_tables_malformed _ _ acc p hp hsc)

/-- C9 witness: project `B` has corrupt `tables_data` but a valid measure
whose name matches `Revenue`; under scope `all` the results equal those
without `B`, while the same measure in the healthy project `A` is found. -/
theorem c9_malformed_tables_blob_skips_measures_witness :
    MCP.analyze_impact ⟨3, [c9Good, c9Bad]⟩ (pstr "Revenue") (pstr "all") =
      MCP.analyze_impact ⟨3, [c9Good]⟩ (pstr "Revenue") (pstr "all") ∧
    (MCP.analyze_impact ⟨3, [c9Good]⟩ (pstr "Revenue") (pstr "all")).projects_with_measure =
      [⟨pstr "A", pstr "T", pstr "Total Revenue", pstr "SUM(Sales[Amount])",
        pstr "Measure Name"⟩] ∧
    c9Bad.measures_data =
      Blob.ok [⟨pstr "T", pstr "Total Revenue", pstr "SUM(Sales[Amount])"⟩] :=
  ⟨c9_malformed_tables_blob_skips_measures 3 [c9Good] [] c9Bad (pstr "Revenue") (pstr "all")
      rfl (Or.inl rfl),
   by decide, by decide⟩

/-- C10: re-analyzing a changed file (stored hash differs) stores the project
under a fresh auto-incremented id and returns it; since every stored id is
below the counter, the returned id differs from the id the name had before,
in both implementations. -/
theorem c10_reanalysis_returns_fresh_id :
    (∀ (st : MCP.Store) (fp pn h : Str) (now sz : Nat) (d : MCP.Payload)
        (e : MCP.ProjectRow), MCP.findByName st.projects pn = some e →
        (e.file_hash == h) = false → e.id < st.next_id →
        (MCP.analyze_pbix_file_with_mcp st fp pn h now sz
            (MCP.ExtractOutcome.success d)).2 = some st.next_id ∧ st.next_id ≠ e.id) ∧
    (∀ (st : Norm.Store) (fp pn h : Str) (now sz : Nat) (m : Norm.Model)
        (e : Norm.NProjectRow), Norm.findByName st.projects pn = some e →
        (e.file_hash == h) = false → e.id < st.next_project_id →
        (Norm.analyze_pbix_file true st fp pn h now sz (some m)).2 =
          some st.next_project_id ∧ st.next_project_id ≠ e.id) := by
  constructor
  · intro st fp pn h now sz d e hf hh hlt
    constructor
    · unfold MCP.analyze_pbix_file_with_mcp
      rw [hf]
      simp [hh, MCP.runExtract, MCP.insertProjectRow, MCP.deleteByName]
    · exact fun hEq => absurd (hEq ▸ hlt) (Nat.lt_irrefl _)
  · intro st fp pn h now sz m e hf hh hlt
    constructor
    · unfold Norm.analyze_pbix_file
      rw [hf]
      simp [hh, Norm.storeModelData]
    · exact fun hEq => absurd (hEq ▸ hlt) (Nat.lt_irrefl _)

/-- C10 witness: re-analyzing `P` (stored under id 1, hash `h`) with hash
`h2` returns the fresh id 2 in both implementations. -/
theorem c10_reanalysis_returns_fresh_id_witness :
    ((MCP.analyze_pbix_file_with_mcp c5Store (pstr "f") (pstr "P") (pstr "h2") 0 0
        (MCP.ExtractOutcome.success c10Payload)).2 = some 2 ∧ (2 : Nat) ≠ 1) ∧
    ((Norm.analyze_pbix_file true c5NStore (pstr "f") (pstr "P") (pstr "h2") 0 0
        (some c5Model)).2 = some 2 ∧ (2 : Nat) ≠ 1) :=
  ⟨c10_reanalysis_returns_fresh_id.1 c5Store (pstr "f") (pstr "P") (pstr "h2") 0 0
      c10Payload c5Row rfl rfl (by decide),
   c10_reanalysis_returns_fresh_id.2 c5NStore (pstr "f") (pstr "P") (pstr "h2") 0 0
      c5Model c5NRow rfl rfl (by decide)⟩
